import Mathlib

/-! Open vSwitch: NSH header accessors and vport helpers.

A shallow embedding of `include/openvswitch/nsh.h` (the HEAD variant of the
accessors) and of the inline helpers of `datapath/vport.h`.

Machine integers are natural numbers; every place where C truncates (a
`uint8_t`/`uint16_t` return value, a `uint32_t` shift, a pointer addition) is
written as an explicit `% 2 ^ n`.  The byte order of the host (the C
preprocessor symbol `WORDS_BIGENDIAN`) is a Boolean parameter `be` of every
function that converts between host and network order.
-/

namespace Ovs

/-! ## Byte order conversion (libc) -/

/-- Swap the two bytes of the low 16 bits of `x`. -/
def bswap16 (x : Nat) : Nat := x % 256 * 256 + x / 256 % 256

/-- Reverse the four bytes of the low 32 bits of `x`. -/
def bswap32 (x : Nat) : Nat :=
  x % 256 * 16777216 + x / 256 % 256 * 65536 + x / 65536 % 256 * 256 + x / 16777216 % 256

/-- The C function `uint16_t ntohs(uint16_t)`: the identity on a big-endian host, a byte swap
otherwise.  The argument is converted to `uint16_t`. -/
def ntohs (be : Bool) (x : Nat) : Nat := if be then x % 65536 else bswap16 x

/-- The C function `uint16_t htons(uint16_t)`. -/
def htons (be : Bool) (x : Nat) : Nat := if be then x % 65536 else bswap16 x

/-- The C function `uint32_t ntohl(uint32_t)`. -/
def ntohl (be : Bool) (x : Nat) : Nat := if be then x % 4294967296 else bswap32 x

/-- The C function `uint32_t htonl(uint32_t)`. -/
def htonl (be : Bool) (x : Nat) : Nat := if be then x % 4294967296 else bswap32 x

/-- C's `~x` on a 32-bit `int`/`unsigned int`, as a 32-bit pattern. -/
def cnot (x : Nat) : Nat := 4294967295 ^^^ x

/-! ## `include/openvswitch/nsh.h`: data model -/

/-- The type `ovs_16aligned_be32` of openvswitch/types.h: a 32-bit network-order value
stored as two 16-bit halves, `hi` first in memory. -/
structure ovs_16aligned_be32 where
  hi : Nat
  lo : Nat
  deriving DecidableEq, Repr

/-- The C type `struct nsh_md1_ctx`: four 32-bit context words. -/
structure nsh_md1_ctx where
  context : List ovs_16aligned_be32
  deriving DecidableEq, Repr

/-- The C type `struct nsh_md2_tlv`: header of one variable-length metadata element. -/
structure nsh_md2_tlv where
  md_class : Nat
  type : Nat
  length : Nat
  deriving DecidableEq, Repr

/-- The anonymous union at the end of `struct nsh_hdr`. -/
inductive nsh_md where
  | md1 (c : nsh_md1_ctx)
  | md2 (t : nsh_md2_tlv)
  deriving DecidableEq, Repr

/-- The C type `struct nsh_hdr`. -/
structure nsh_hdr where
  ver_flags_ttl_len : Nat
  md_type : Nat
  next_proto : Nat
  path_hdr : ovs_16aligned_be32
  md : nsh_md
  deriving DecidableEq, Repr

def NSH_VER_MASK : Nat := 0xc000
def NSH_VER_SHIFT : Nat := 14
def NSH_FLAGS_MASK : Nat := 0x3000
def NSH_FLAGS_SHIFT : Nat := 12
def NSH_TTL_MASK : Nat := 0x0fc0
def NSH_TTL_SHIFT : Nat := 6
def NSH_LEN_MASK : Nat := 0x003f
def NSH_LEN_SHIFT : Nat := 0

def NSH_MDTYPE_MASK : Nat := 0x0f
def NSH_MDTYPE_SHIFT : Nat := 0

def NSH_SPI_MASK : Nat := 0xffffff00
def NSH_SPI_SHIFT : Nat := 8
def NSH_SI_MASK : Nat := 0x000000ff
def NSH_SI_SHIFT : Nat := 0

def NSH_P_IPV4 : Nat := 0x01
def NSH_P_IPV6 : Nat := 0x02
def NSH_P_ETHERNET : Nat := 0x03
def NSH_P_NSH : Nat := 0x04
def NSH_P_MPLS : Nat := 0x05

def NSH_M_TYPE1 : Nat := 0x01
def NSH_M_TYPE2 : Nat := 0x02
def NSH_M_EXP1 : Nat := 0xFE
def NSH_M_EXP2 : Nat := 0xFF

def NSH_M_TYPE1_MDLEN : Nat := 16
def NSH_BASE_HDR_LEN : Nat := 8
def NSH_M_TYPE1_LEN : Nat := 24
def NSH_HDR_MAX_LEN : Nat := 256
def NSH_CTX_HDRS_MAX_LEN : Nat := 248

/-! ## `include/openvswitch/nsh.h`: accessors -/

/-- The C function `uint16_t nsh_hdr_len(const struct nsh_hdr *)`. -/
def nsh_hdr_len (be : Bool) (nsh : nsh_hdr) : Nat :=
  ((((ntohs be nsh.ver_flags_ttl_len) &&& NSH_LEN_MASK) >>> NSH_LEN_SHIFT) <<< 2) % 65536

/-- The C function `uint8_t nsh_md_type(const struct nsh_hdr *)`. -/
def nsh_md_type (nsh : nsh_hdr) : Nat :=
  ((nsh.md_type &&& NSH_MDTYPE_MASK) >>> NSH_MDTYPE_SHIFT) % 256

/-- The C function `uint8_t nsh_get_ver(const struct nsh_hdr *)`. -/
def nsh_get_ver (be : Bool) (nsh : nsh_hdr) : Nat :=
  (((ntohs be nsh.ver_flags_ttl_len) &&& NSH_VER_MASK) >>> NSH_VER_SHIFT) % 256

/-- The C function `uint8_t nsh_get_flags(const struct nsh_hdr *)`. -/
def nsh_get_flags (be : Bool) (nsh : nsh_hdr) : Nat :=
  (((ntohs be nsh.ver_flags_ttl_len) &&& NSH_FLAGS_MASK) >>> NSH_FLAGS_SHIFT) % 256

/-- The C function `void nsh_reset_ver_flags_ttl_len(struct nsh_hdr *)`. -/
def nsh_reset_ver_flags_ttl_len (nsh : nsh_hdr) : nsh_hdr :=
  { nsh with ver_flags_ttl_len := 0 }

/-- The C function `uint8_t nsh_get_ttl(const struct nsh_hdr *)`. -/
def nsh_get_ttl (be : Bool) (nsh : nsh_hdr) : Nat :=
  (((ntohs be nsh.ver_flags_ttl_len) &&& NSH_TTL_MASK) >>> NSH_TTL_SHIFT) % 256

/-- The C function `ovs_be32 nsh_16aligned_be32(const ovs_16aligned_be32 *)`: both branches of
the `#ifdef WORDS_BIGENDIAN`. -/
def nsh_16aligned_be32 (be : Bool) (x : ovs_16aligned_be32) : Nat :=
  if be then ((x.hi <<< 16) % 4294967296) ||| x.lo
  else ((x.lo <<< 16) % 4294967296) ||| x.hi

/-- The C function `ovs_be32 nsh_get_path_hdr(const struct nsh_hdr *)`. -/
def nsh_get_path_hdr (be : Bool) (nsh : nsh_hdr) : Nat :=
  nsh_16aligned_be32 be nsh.path_hdr

/-- The C function `ovs_be32 nsh_get_spi(const struct nsh_hdr *)`. -/
def nsh_get_spi (be : Bool) (nsh : nsh_hdr) : Nat :=
  let path_hdr := ntohl be (nsh_get_path_hdr be nsh)
  htonl be ((path_hdr &&& NSH_SPI_MASK) >>> NSH_SPI_SHIFT)

/-- The C function `uint8_t nsh_get_si(const struct nsh_hdr *)`. -/
def nsh_get_si (be : Bool) (nsh : nsh_hdr) : Nat :=
  let path_hdr := ntohl be (nsh_get_path_hdr be nsh)
  ((path_hdr &&& NSH_SI_MASK) >>> NSH_SI_SHIFT) % 256

/-- The C function `ovs_be32 nsh_path_hdr_to_spi(ovs_be32)`. -/
def nsh_path_hdr_to_spi (be : Bool) (path_hdr : Nat) : Nat :=
  htonl be (((ntohl be path_hdr) &&& NSH_SPI_MASK) >>> NSH_SPI_SHIFT)

/-- The C function `uint32_t nsh_path_hdr_to_spi_uint32(ovs_be32)`. -/
def nsh_path_hdr_to_spi_uint32 (be : Bool) (path_hdr : Nat) : Nat :=
  ((ntohl be path_hdr) &&& NSH_SPI_MASK) >>> NSH_SPI_SHIFT

/-- The C function `uint8_t nsh_path_hdr_to_si(ovs_be32)`. -/
def nsh_path_hdr_to_si (be : Bool) (path_hdr : Nat) : Nat :=
  (((ntohl be path_hdr) &&& NSH_SI_MASK) >>> NSH_SI_SHIFT) % 256

/-- The C function `ovs_be32 nsh_spi_si_to_path_hdr(uint32_t spi, uint8_t si)`; the shift is
a `uint32_t` shift. -/
def nsh_spi_si_to_path_hdr (be : Bool) (spi si : Nat) : Nat :=
  htonl be (((spi <<< NSH_SPI_SHIFT) % 4294967296) ||| si)

/-- The C function `void nsh_set_flags_and_ttl(struct nsh_hdr *, uint8_t flags, uint8_t ttl)`. -/
def nsh_set_flags_and_ttl (be : Bool) (nsh : nsh_hdr) (flags ttl : Nat) : nsh_hdr :=
  { nsh with
    ver_flags_ttl_len :=
      htons be (((ntohs be nsh.ver_flags_ttl_len)
                  &&& cnot (NSH_FLAGS_MASK ||| NSH_TTL_MASK))
                ||| ((flags <<< NSH_FLAGS_SHIFT) &&& NSH_FLAGS_MASK)
                ||| ((ttl <<< NSH_TTL_SHIFT) &&& NSH_TTL_MASK)) }

/-- The C function `void nsh_set_flags_ttl_len(struct nsh_hdr *, uint8_t flags, uint8_t ttl,
uint16_t len)`. -/
def nsh_set_flags_ttl_len (be : Bool) (nsh : nsh_hdr) (flags ttl len : Nat) : nsh_hdr :=
  { nsh with
    ver_flags_ttl_len :=
      htons be (((ntohs be nsh.ver_flags_ttl_len)
                  &&& cnot (NSH_FLAGS_MASK ||| NSH_TTL_MASK ||| NSH_LEN_MASK))
                ||| ((flags <<< NSH_FLAGS_SHIFT) &&& NSH_FLAGS_MASK)
                ||| ((ttl <<< NSH_TTL_SHIFT) &&& NSH_TTL_MASK)
                ||| (((len >>> 2) <<< NSH_LEN_SHIFT) &&& NSH_LEN_MASK)) }

/-- The C function `void nsh_path_hdr_set_spi(ovs_be32 *path_hdr, ovs_be32 spi)`: the new
value of `*path_hdr`. -/
def nsh_path_hdr_set_spi (be : Bool) (path_hdr spi : Nat) : Nat :=
  htonl be (((ntohl be path_hdr) &&& cnot NSH_SPI_MASK)
            ||| ((((ntohl be spi) <<< NSH_SPI_SHIFT) % 4294967296) &&& NSH_SPI_MASK))

/-- The C function `void nsh_path_hdr_set_si(ovs_be32 *path_hdr, uint8_t si)`: the new value
of `*path_hdr`. -/
def nsh_path_hdr_set_si (be : Bool) (path_hdr si : Nat) : Nat :=
  htonl be (((ntohl be path_hdr) &&& cnot NSH_SI_MASK)
            ||| ((si <<< NSH_SI_SHIFT) &&& NSH_SI_MASK))

/-! ## Layout of `struct nsh_hdr` -/

/-- The members of `struct nsh_hdr`, in declaration order; `md` is the
trailing union, whose MD-type-1 alternative is `struct nsh_md1_ctx`. -/
inductive nsh_hdr_member where
  | ver_flags_ttl_len
  | md_type
  | next_proto
  | path_hdr
  | md
  deriving DecidableEq, Repr

/-- Size in bytes of each member: `ovs_be16` is 2 bytes, `uint8_t` is 1,
`ovs_16aligned_be32` is two `ovs_be16`, `struct nsh_md1_ctx` is four
`ovs_16aligned_be32`. -/
def nsh_hdr_member.size : nsh_hdr_member → Nat
  | .ver_flags_ttl_len => 2
  | .md_type => 1
  | .next_proto => 1
  | .path_hdr => 2 + 2
  | .md => 4 * (2 + 2)

/-- Alignment in bytes of each member (that of its widest scalar). -/
def nsh_hdr_member.align : nsh_hdr_member → Nat
  | .ver_flags_ttl_len => 2
  | .md_type => 1
  | .next_proto => 1
  | .path_hdr => 2
  | .md => 2

/-- Declaration order of the members of `struct nsh_hdr`. -/
def nsh_hdr_members : List nsh_hdr_member :=
  [.ver_flags_ttl_len, .md_type, .next_proto, .path_hdr, .md]

/-- Round `off` up to the next multiple of `a`. -/
def round_up (off a : Nat) : Nat := (off + a - 1) / a * a

/-- C struct layout: walk the members in order, placing each at the next
offset that is a multiple of its alignment; `off` is the first free byte. -/
def offsetof_from (off : Nat) (m : nsh_hdr_member) : List nsh_hdr_member → Option Nat
  | [] => none
  | x :: rest =>
    let start := round_up off x.align
    if x = m then some start else offsetof_from (start + x.size) m rest

/-- The value of `offsetof(struct nsh_hdr, m)`. -/
def nsh_hdr_offsetof (m : nsh_hdr_member) : Option Nat :=
  offsetof_from 0 m nsh_hdr_members

/-- First free byte after laying out the given members from `off`. -/
def layout_end (off : Nat) : List nsh_hdr_member → Nat
  | [] => off
  | x :: rest => layout_end (round_up off x.align + x.size) rest

/-- The value of `sizeof(struct nsh_hdr)` when the union holds the MD-type-1 context. -/
def nsh_hdr_md1_sizeof : Nat := round_up (layout_end 0 nsh_hdr_members) 2

/-! ## `datapath/vport.h` -/

/-- Modelled from the spec: `struct reciprocal_value` and `reciprocal_divide`
of linux/reciprocal_div.h, which is not among the sources.  The spec describes
it only as "a precomputed fast-division constant for its length", used to
"reduce that hash modulo the current array length"; the constant is modelled
by the divisor it was computed for. -/
structure reciprocal_value where
  d : Nat
  deriving DecidableEq, Repr

/-- Modelled from the spec: precomputing the fast-division constant of a
length (`reciprocal_value(n)`, linux/reciprocal_div.h, not among the
sources). -/
def reciprocal_value.of (n : Nat) : reciprocal_value := ⟨n⟩

/-- Modelled from the spec: `reciprocal_divide(a, R)` of
linux/reciprocal_div.h (not among the sources): the quotient of `a` by the
divisor the constant was precomputed for. -/
def reciprocal_divide (a : Nat) (R : reciprocal_value) : Nat := a / R.d

/-- The C type `struct vport_portids` (without the RCU callback head). -/
structure vport_portids where
  rn_ids : reciprocal_value
  n_ids : Nat
  ids : List Nat
  deriving DecidableEq, Repr

/-- Modelled from the spec: the array that `set_targets`
(`ovs_vport_set_upcall_portids`, defined in datapath/vport.c, which is not
among the sources) installs: "builds a new immutable array ..., precomputes
the fast-division constant for its length". -/
def vport_portids.of (ids : List Nat) : vport_portids :=
  { rn_ids := reciprocal_value.of ids.length, n_ids := ids.length, ids := ids }

/-- Modelled from the spec: the index chosen by `select_target`: "reduce that
hash modulo the current array length using the precomputed fast-division
constant". -/
def upcall_portid_index (p : vport_portids) (hash : Nat) : Nat :=
  hash - p.n_ids * reciprocal_divide hash p.rn_ids

/-- Modelled from the spec: `select_target`, that is
`ovs_vport_find_upcall_portid`, which datapath/vport.h only declares (its body
is in datapath/vport.c, not among the sources): "return `ids[hash mod n]`.  If
the current array length is 0, there is no delivery target". -/
def ovs_vport_find_upcall_portid (p : vport_portids) (hash : Nat) : Option Nat :=
  if p.n_ids = 0 then none else p.ids.get? (upcall_portid_index p hash)

def VPORT_ALIGN : Nat := 8

/-- Modelled from the spec: the kernel macro `ALIGN(x, a)` (linux/kernel.h,
not among the sources), `(x + a - 1) & ~(a - 1)` computed in unsigned
arithmetic of `bits` bits. -/
def ALIGN (bits x a : Nat) : Nat :=
  ((x + a - 1) % 2 ^ bits) &&& ((2 ^ bits - 1) ^^^ ((a - 1) % 2 ^ bits))

/-- The C function `void *vport_priv(const struct vport *)`, on addresses of `bits` bits;
`sizeof_vport` is `sizeof(struct vport)`. -/
def vport_priv (bits sizeof_vport vport : Nat) : Nat :=
  (vport + ALIGN bits sizeof_vport VPORT_ALIGN) % 2 ^ bits

/-- The C function `struct vport *vport_from_priv(void *)`, on addresses of `bits` bits: the
subtraction wraps around like the addition. -/
def vport_from_priv (bits sizeof_vport priv : Nat) : Nat :=
  (priv + (2 ^ bits - ALIGN bits sizeof_vport VPORT_ALIGN % 2 ^ bits)) % 2 ^ bits

/-! ## Bytes in memory -/

/-- The native 16-bit integer a host reads from two consecutive bytes of
memory, `b0` at the lower address: most significant byte first on a
big-endian host, least significant byte first otherwise. -/
def load16 (be : Bool) (b0 b1 : Nat) : Nat :=
  if be then b0 * 256 + b1 else b1 * 256 + b0

/-- An `ovs_16aligned_be32` whose four bytes in memory are `b0 b1 b2 b3`: `hi`
is the native 16-bit integer at the first two bytes, `lo` the one at the last
two. -/
def ovs_16aligned_be32.of_bytes (be : Bool) (b0 b1 b2 b3 : Nat) : ovs_16aligned_be32 :=
  { hi := load16 be b0 b1, lo := load16 be b2 b3 }

/-- The four bytes a host writes to memory for a native 32-bit integer, lowest
address first. -/
def store32 (be : Bool) (v : Nat) : List Nat :=
  if be then [v / 16777216 % 256, v / 65536 % 256, v / 256 % 256, v % 256]
  else [v % 256, v / 256 % 256, v / 65536 % 256, v / 16777216 % 256]

/-! ## Sample data -/

/-- The header used to instantiate the statements below: version 0, flags 1,
TTL 63, length 6 words, MD type 1, next protocol Ethernet, SPI 0x000102 and
SI 255, on a little-endian host. -/
def sample_hdr : nsh_hdr :=
  { ver_flags_ttl_len := htons false 0x1fc6
    md_type := NSH_M_TYPE1
    next_proto := NSH_P_ETHERNET
    path_hdr := { hi := htons false 0x0001, lo := htons false 0x02ff }
    md := .md1 { context := List.replicate 4 { hi := 0, lo := 0 } } }

/-! ## Bit-field arithmetic -/

theorem land_shifted_mask (x n k : Nat) :
    x &&& ((2 ^ n - 1) <<< k) = x / 2 ^ k % 2 ^ n * 2 ^ k := by
  rw [← Nat.shiftLeft_eq, ← Nat.shiftRight_eq_div_pow]
  apply Nat.eq_of_testBit_eq
  intro i
  simp only [Nat.testBit_and, Nat.testBit_shiftLeft, Nat.testBit_two_pow_sub_one,
    Nat.testBit_mod_two_pow, Nat.testBit_shiftRight]
  by_cases h : k ≤ i
  · have : k + (i - k) = i := by omega
    simp [h, this, Bool.and_comm]
  · simp [h]

theorem lor_eq_add (a b k : Nat) (ha : a % 2 ^ k = 0) (hb : b < 2 ^ k) :
    a ||| b = a + b := by
  obtain ⟨c, rfl⟩ := Nat.dvd_of_mod_eq_zero ha
  exact (Nat.mul_add_lt_is_or hb c).symm

theorem land_c000 (w : Nat) : w &&& 0xc000 = w / 16384 % 4 * 16384 := by
  simpa using land_shifted_mask w 2 14

theorem land_3000 (w : Nat) : w &&& 0x3000 = w / 4096 % 4 * 4096 := by
  simpa using land_shifted_mask w 2 12

theorem land_0fc0 (w : Nat) : w &&& 0x0fc0 = w / 64 % 64 * 64 := by
  simpa using land_shifted_mask w 6 6

theorem land_003f (w : Nat) : w &&& 0x003f = w % 64 := by
  simpa using land_shifted_mask w 6 0

theorem land_ff (w : Nat) : w &&& 0xff = w % 256 := by
  simpa using land_shifted_mask w 8 0

theorem land_0f (w : Nat) : w &&& 0x0f = w % 16 := by
  simpa using land_shifted_mask w 4 0

theorem land_ffffff00 (w : Nat) : w &&& 0xffffff00 = w / 256 % 16777216 * 256 := by
  simpa using land_shifted_mask w 24 8

theorem land_ffffc03f (w : Nat) :
    w &&& 0xffffc03f = w / 16384 % 262144 * 16384 ||| w % 64 := by
  have e : (0xffffc03f : Nat) = ((2 ^ 18 - 1) <<< 14) ||| ((2 ^ 6 - 1) <<< 0) := by decide
  rw [e, Nat.and_or_distrib_left, land_shifted_mask, land_shifted_mask]
  simp

theorem lor_rotate (h l b c : Nat) : h ||| l ||| b ||| c = h ||| b ||| c ||| l := by
  ac_rfl

theorem land_ffffc000 (w : Nat) : w &&& 0xffffc000 = w / 16384 % 262144 * 16384 := by
  simpa using land_shifted_mask w 18 14

theorem bswap16_bswap16 (x : Nat) : bswap16 (bswap16 x) = x % 65536 := by
  unfold bswap16
  generalize ha : x % 256 = a
  generalize hb : x / 256 % 256 = b
  have h1 : (a * 256 + b) % 256 = b := by omega
  have h2 : (a * 256 + b) / 256 % 256 = a := by omega
  rw [h1, h2]; clear h1 h2; omega

theorem bswap32_bswap32 (x : Nat) : bswap32 (bswap32 x) = x % 4294967296 := by
  unfold bswap32
  generalize ha : x % 256 = a
  generalize hb : x / 256 % 256 = b
  generalize hc : x / 65536 % 256 = c
  generalize hd : x / 16777216 % 256 = d
  have h1 : (a * 16777216 + b * 65536 + c * 256 + d) % 256 = d := by omega
  have h2 : (a * 16777216 + b * 65536 + c * 256 + d) / 256 % 256 = c := by omega
  have h3 : (a * 16777216 + b * 65536 + c * 256 + d) / 65536 % 256 = b := by omega
  have h4 : (a * 16777216 + b * 65536 + c * 256 + d) / 16777216 % 256 = a := by omega
  rw [h1, h2, h3, h4]; clear h1 h2 h3 h4; omega

theorem ntohs_lt (be : Bool) (x : Nat) : ntohs be x < 65536 := by
  unfold ntohs bswap16; split <;> omega

theorem htons_lt (be : Bool) (x : Nat) : htons be x < 65536 := by
  unfold htons bswap16; split <;> omega

theorem ntohs_htons (be : Bool) (x : Nat) : ntohs be (htons be x) = x % 65536 := by
  cases be
  · simpa [ntohs, htons] using bswap16_bswap16 x
  · simp [ntohs, htons]

theorem htons_ntohs (be : Bool) (x : Nat) : htons be (ntohs be x) = x % 65536 := by
  cases be
  · simpa [ntohs, htons] using bswap16_bswap16 x
  · simp [ntohs, htons]

theorem ntohl_lt (be : Bool) (x : Nat) : ntohl be x < 4294967296 := by
  unfold ntohl bswap32; split <;> omega

theorem htonl_lt (be : Bool) (x : Nat) : htonl be x < 4294967296 := by
  unfold htonl bswap32; split <;> omega

theorem ntohl_htonl (be : Bool) (x : Nat) : ntohl be (htonl be x) = x % 4294967296 := by
  cases be
  · simpa [ntohl, htonl] using bswap32_bswap32 x
  · simp [ntohl, htonl]

theorem htonl_ntohl (be : Bool) (x : Nat) : htonl be (ntohl be x) = x % 4294967296 := by
  cases be
  · simpa [ntohl, htonl] using bswap32_bswap32 x
  · simp [ntohl, htonl]

/-- The four bit fields of the base word, in terms of division and remainder. -/
theorem nsh_get_ver_eq (be : Bool) (h : nsh_hdr) :
    nsh_get_ver be h = ntohs be h.ver_flags_ttl_len / 16384 := by
  have hw := ntohs_lt be h.ver_flags_ttl_len
  simp only [nsh_get_ver, NSH_VER_MASK, NSH_VER_SHIFT, land_c000, Nat.shiftRight_eq_div_pow]
  omega

theorem nsh_get_flags_eq (be : Bool) (h : nsh_hdr) :
    nsh_get_flags be h = ntohs be h.ver_flags_ttl_len / 4096 % 4 := by
  simp only [nsh_get_flags, NSH_FLAGS_MASK, NSH_FLAGS_SHIFT, land_3000,
    Nat.shiftRight_eq_div_pow]
  omega

theorem nsh_get_ttl_eq (be : Bool) (h : nsh_hdr) :
    nsh_get_ttl be h = ntohs be h.ver_flags_ttl_len / 64 % 64 := by
  simp only [nsh_get_ttl, NSH_TTL_MASK, NSH_TTL_SHIFT, land_0fc0, Nat.shiftRight_eq_div_pow]
  omega

theorem nsh_hdr_len_eq (be : Bool) (h : nsh_hdr) :
    nsh_hdr_len be h = ntohs be h.ver_flags_ttl_len % 64 * 4 := by
  simp only [nsh_hdr_len, NSH_LEN_MASK, NSH_LEN_SHIFT, land_003f, Nat.shiftRight_eq_div_pow,
    Nat.shiftLeft_eq]
  omega

/-! ## The base word -/

/-- C1: with `w = ntohs(nsh->ver_flags_ttl_len)`, the version and flags are in
0..3, the TTL and the length in words are in 0..63, the length in bytes is a
multiple of 4, and shifting the four fields back to their positions and
or-ing them gives `w` again. -/
theorem nsh_base_word_fields (be : Bool) (h : nsh_hdr) :
    nsh_get_ver be h ≤ 3 ∧ nsh_get_flags be h ≤ 3 ∧ nsh_get_ttl be h ≤ 63 ∧
    nsh_hdr_len be h / 4 ≤ 63 ∧ nsh_hdr_len be h % 4 = 0 ∧
    ((nsh_get_ver be h <<< 14) ||| (nsh_get_flags be h <<< 12) |||
      (nsh_get_ttl be h <<< 6) ||| (nsh_hdr_len be h >>> 2))
      = ntohs be h.ver_flags_ttl_len := by
  have hw := ntohs_lt be h.ver_flags_ttl_len
  rw [nsh_get_ver_eq, nsh_get_flags_eq, nsh_get_ttl_eq, nsh_hdr_len_eq]
  generalize ntohs be h.ver_flags_ttl_len = w at hw ⊢
  refine ⟨by omega, by omega, by omega, by omega, by omega, ?_⟩
  simp only [Nat.shiftLeft_eq, Nat.shiftRight_eq_div_pow]
  simp (disch := omega) only [lor_eq_add _ _ 14, lor_eq_add _ _ 12, lor_eq_add _ _ 6]
  omega

/-- The base word after `nsh_set_flags_and_ttl`, in host order. -/
theorem nsh_set_flags_and_ttl_word (be : Bool) (h : nsh_hdr) (flags ttl : Nat) :
    ntohs be (nsh_set_flags_and_ttl be h flags ttl).ver_flags_ttl_len
      = ntohs be h.ver_flags_ttl_len / 16384 * 16384 + flags % 4 * 4096 + ttl % 64 * 64
        + ntohs be h.ver_flags_ttl_len % 64 := by
  have hw := ntohs_lt be h.ver_flags_ttl_len
  have e : cnot (NSH_FLAGS_MASK ||| NSH_TTL_MASK) = 0xffffc03f := by decide
  simp only [nsh_set_flags_and_ttl, ntohs_htons, e]
  simp only [NSH_FLAGS_MASK, NSH_FLAGS_SHIFT,
    NSH_TTL_MASK, NSH_TTL_SHIFT, land_ffffc03f, land_3000, land_0fc0, Nat.shiftLeft_eq]
  generalize ntohs be h.ver_flags_ttl_len = w at hw ⊢
  rw [lor_rotate]
  simp (disch := omega) only [lor_eq_add _ _ 14, lor_eq_add _ _ 12, lor_eq_add _ _ 6]
  omega

/-- The base word after `nsh_set_flags_ttl_len`, in host order. -/
theorem nsh_set_flags_ttl_len_word (be : Bool) (h : nsh_hdr) (flags ttl len : Nat) :
    ntohs be (nsh_set_flags_ttl_len be h flags ttl len).ver_flags_ttl_len
      = ntohs be h.ver_flags_ttl_len / 16384 * 16384 + flags % 4 * 4096 + ttl % 64 * 64
        + len / 4 % 64 := by
  have hw := ntohs_lt be h.ver_flags_ttl_len
  have e : cnot (NSH_FLAGS_MASK ||| NSH_TTL_MASK ||| NSH_LEN_MASK) = 0xffffc000 := by decide
  simp only [nsh_set_flags_ttl_len, ntohs_htons, e]
  simp only [NSH_FLAGS_MASK, NSH_FLAGS_SHIFT,
    NSH_TTL_MASK, NSH_TTL_SHIFT, NSH_LEN_MASK, NSH_LEN_SHIFT, land_ffffc000, land_3000,
    land_0fc0, land_003f, Nat.shiftLeft_eq, Nat.shiftRight_eq_div_pow]
  generalize ntohs be h.ver_flags_ttl_len = w at hw ⊢
  simp (disch := omega) only [lor_eq_add _ _ 14, lor_eq_add _ _ 12, lor_eq_add _ _ 6]
  omega

/-- C2: writing back the flags unchanged and the TTL minus one (as a
`uint8_t`, so that 0 - 1 is 255) leaves a TTL of 63 when it was 0 and of one
less otherwise; version, flags and header length read as before. -/
theorem nsh_ttl_decrement_wraps (be : Bool) (h : nsh_hdr) :
    nsh_get_ttl be (nsh_set_flags_and_ttl be h (nsh_get_flags be h)
        ((nsh_get_ttl be h + 256 - 1) % 256))
      = (if nsh_get_ttl be h = 0 then 63 else nsh_get_ttl be h - 1) ∧
    nsh_get_ver be (nsh_set_flags_and_ttl be h (nsh_get_flags be h)
        ((nsh_get_ttl be h + 256 - 1) % 256)) = nsh_get_ver be h ∧
    nsh_get_flags be (nsh_set_flags_and_ttl be h (nsh_get_flags be h)
        ((nsh_get_ttl be h + 256 - 1) % 256)) = nsh_get_flags be h ∧
    nsh_hdr_len be (nsh_set_flags_and_ttl be h (nsh_get_flags be h)
        ((nsh_get_ttl be h + 256 - 1) % 256)) = nsh_hdr_len be h := by
  have hw := ntohs_lt be h.ver_flags_ttl_len
  simp only [nsh_get_ver_eq, nsh_get_flags_eq, nsh_get_ttl_eq, nsh_hdr_len_eq,
    nsh_set_flags_and_ttl_word]
  generalize ntohs be h.ver_flags_ttl_len = w at hw ⊢
  refine ⟨?_, by omega, by omega, by omega⟩
  split <;> omega

/-- C3: storing a length that is a multiple of 4 and at most 252 makes
`nsh_hdr_len` return that length; the flags and TTL read back reduced to their
field widths, and the version is untouched. -/
theorem nsh_set_flags_ttl_len_reads_back (be : Bool) (h : nsh_hdr) (flags ttl len : Nat)
    (hlen4 : len % 4 = 0) (hlen : len ≤ 252) :
    nsh_hdr_len be (nsh_set_flags_ttl_len be h flags ttl len) = len ∧
    nsh_get_flags be (nsh_set_flags_ttl_len be h flags ttl len) = flags % 4 ∧
    nsh_get_ttl be (nsh_set_flags_ttl_len be h flags ttl len) = ttl % 64 ∧
    nsh_get_ver be (nsh_set_flags_ttl_len be h flags ttl len) = nsh_get_ver be h := by
  have hw := ntohs_lt be h.ver_flags_ttl_len
  simp only [nsh_get_ver_eq, nsh_get_flags_eq, nsh_get_ttl_eq, nsh_hdr_len_eq,
    nsh_set_flags_ttl_len_word]
  generalize ntohs be h.ver_flags_ttl_len = w at hw ⊢
  refine ⟨by omega, by omega, by omega, by omega⟩

theorem nsh_set_flags_ttl_len_reads_back_witness :
    24 % 4 = 0 ∧ 24 ≤ 252 ∧
    (nsh_hdr_len false (nsh_set_flags_ttl_len false sample_hdr 5 200 24) = 24 ∧
     nsh_get_flags false (nsh_set_flags_ttl_len false sample_hdr 5 200 24) = 5 % 4 ∧
     nsh_get_ttl false (nsh_set_flags_ttl_len false sample_hdr 5 200 24) = 200 % 64 ∧
     nsh_get_ver false (nsh_set_flags_ttl_len false sample_hdr 5 200 24)
       = nsh_get_ver false sample_hdr) :=
  ⟨by decide, by decide,
    nsh_set_flags_ttl_len_reads_back false sample_hdr 5 200 24 (by decide) (by decide)⟩

/-! ## The service path header -/

/-- The host-order word under a packed service path header. -/
theorem nsh_spi_si_to_path_hdr_word (be : Bool) (spi si : Nat) (hsi : si < 256) :
    ntohl be (nsh_spi_si_to_path_hdr be spi si) = spi % 16777216 * 256 + si := by
  simp only [nsh_spi_si_to_path_hdr, ntohl_htonl, NSH_SPI_SHIFT, Nat.shiftLeft_eq]
  rw [lor_eq_add _ _ 8 (by omega) (by omega)]
  omega

/-- C4: unpacking a packed service path header gives back the service index,
and the service path identifier reduced to 24 bits, hence the identifier
itself when it is below 2^24. -/
theorem nsh_path_hdr_decode_encode (be : Bool) (spi si : Nat) (hsi : si < 256) :
    (spi < 16777216 →
      nsh_path_hdr_to_spi_uint32 be (nsh_spi_si_to_path_hdr be spi si) = spi) ∧
    nsh_path_hdr_to_spi_uint32 be (nsh_spi_si_to_path_hdr be spi si) = spi % 16777216 ∧
    nsh_path_hdr_to_si be (nsh_spi_si_to_path_hdr be spi si) = si := by
  simp only [nsh_path_hdr_to_spi_uint32, nsh_path_hdr_to_si, nsh_spi_si_to_path_hdr_word be spi si hsi,
    NSH_SPI_MASK, NSH_SPI_SHIFT, NSH_SI_MASK, NSH_SI_SHIFT, land_ffffff00, land_ff,
    Nat.shiftRight_eq_div_pow]
  refine ⟨fun _ => by omega, by omega, by omega⟩

theorem nsh_path_hdr_decode_encode_witness :
    (258 : Nat) < 16777216 ∧ (255 : Nat) < 256 ∧
    nsh_path_hdr_to_spi_uint32 false (nsh_spi_si_to_path_hdr false 258 255) = 258 ∧
    nsh_path_hdr_to_spi_uint32 true (nsh_spi_si_to_path_hdr true 0x12345678 7) = 0x345678 ∧
    nsh_path_hdr_to_si false (nsh_spi_si_to_path_hdr false 258 255) = 255 :=
  ⟨by decide, by decide,
    (nsh_path_hdr_decode_encode false 258 255 (by decide)).1 (by decide),
    (nsh_path_hdr_decode_encode true 0x12345678 7 (by decide)).2.1,
    (nsh_path_hdr_decode_encode false 258 255 (by decide)).2.2⟩

/-- C5: packing the service path identifier and service index unpacked from a
32-bit network-order path header gives that path header back. -/
theorem nsh_path_hdr_encode_decode (be : Bool) (p : Nat) (hp : p < 4294967296) :
    nsh_spi_si_to_path_hdr be (nsh_path_hdr_to_spi_uint32 be p) (nsh_path_hdr_to_si be p)
      = p := by
  have hx := ntohl_lt be p
  have hback := htonl_ntohl be p
  simp only [nsh_spi_si_to_path_hdr, nsh_path_hdr_to_spi_uint32, nsh_path_hdr_to_si,
    NSH_SPI_MASK, NSH_SPI_SHIFT, NSH_SI_MASK, NSH_SI_SHIFT, land_ffffff00, land_ff,
    Nat.shiftRight_eq_div_pow, Nat.shiftLeft_eq]
  generalize ntohl be p = x at hx hback ⊢
  rw [lor_eq_add _ _ 8 (by omega) (by omega)]
  have hx' : x / 256 % 16777216 * 256 / 2 ^ 8 * 2 ^ 8 % 4294967296
      + x % 256 / 2 ^ 0 % 256 = x := by omega
  rw [hx', hback]
  omega

theorem nsh_path_hdr_encode_decode_witness :
    (0xff020100 : Nat) < 4294967296 ∧
    nsh_spi_si_to_path_hdr false (nsh_path_hdr_to_spi_uint32 false 0xff020100)
      (nsh_path_hdr_to_si false 0xff020100) = 0xff020100 :=
  ⟨by decide, nsh_path_hdr_encode_decode false 0xff020100 (by decide)⟩

/-! ## Upcall port ids -/

/-- C6: for an array with at least one id whose `rn_ids` is the reciprocal of
its `n_ids`, the index chosen for a hash is `hash mod n_ids`, it is below
`n_ids`, and `ovs_vport_find_upcall_portid` returns the id stored there; for
the ids 5, 9, 13 and the hash 7 that id is 9. -/
theorem ovs_vport_find_upcall_portid_mod (p : vport_portids) (hash : Nat)
    (hr : p.rn_ids = reciprocal_value.of p.n_ids) (hl : p.n_ids = p.ids.length)
    (hn : 1 ≤ p.n_ids) :
    upcall_portid_index p hash = hash % p.n_ids ∧
    upcall_portid_index p hash < p.n_ids ∧
    (∃ id, ovs_vport_find_upcall_portid p hash = some id ∧
      p.ids.get? (hash % p.n_ids) = some id) ∧
    ovs_vport_find_upcall_portid (vport_portids.of [5, 9, 13]) 7 = some 9 := by
  have hidx : upcall_portid_index p hash = hash % p.n_ids := by
    simp only [upcall_portid_index, reciprocal_divide, hr, reciprocal_value.of]
    exact (Nat.mod_def hash p.n_ids).symm
  have hlt : hash % p.n_ids < p.n_ids := Nat.mod_lt _ hn
  refine ⟨hidx, hidx ▸ hlt, ?_, by decide⟩
  have hne : p.n_ids ≠ 0 := by omega
  have hlt' : hash % p.n_ids < p.ids.length := hl ▸ hlt
  refine ⟨p.ids.get ⟨hash % p.n_ids, hlt'⟩, ?_, List.get?_eq_get hlt'⟩
  simp only [ovs_vport_find_upcall_portid, hne, if_false, hidx]
  exact List.get?_eq_get hlt'

theorem ovs_vport_find_upcall_portid_mod_witness :
    upcall_portid_index (vport_portids.of [5, 9, 13]) 7 = 7 % 3 ∧
    upcall_portid_index (vport_portids.of [5, 9, 13]) 7 < 3 ∧
    ovs_vport_find_upcall_portid (vport_portids.of [5, 9, 13]) 7 = some 9 :=
  have h := ovs_vport_find_upcall_portid_mod (vport_portids.of [5, 9, 13]) 7 rfl rfl
    (by decide)
  ⟨h.1, h.2.1, h.2.2.2⟩

/-! ## Private data area of a vport -/

theorem add_then_sub_mod (M v e : Nat) (hv : v < M) (he : e < M) :
    ((v + e) % M + (M - e)) % M = v := by
  by_cases h : v + e < M
  · have e1 : v + e + (M - e) = v + M := by omega
    rw [Nat.mod_eq_of_lt h, e1, Nat.add_mod_right, Nat.mod_eq_of_lt hv]
  · have e1 : (v + e) % M = v + e - M := by
      rw [Nat.mod_eq_sub_mod (by omega), Nat.mod_eq_of_lt (by omega)]
    have e2 : v + e - M + (M - e) = v := by omega
    rw [e1, e2, Nat.mod_eq_of_lt hv]

theorem sub_then_add_mod (M p e : Nat) (hp : p < M) (he : e < M) :
    ((p + (M - e)) % M + e) % M = p := by
  by_cases h : p + (M - e) < M
  · have e1 : p + (M - e) + e = p + M := by omega
    rw [Nat.mod_eq_of_lt h, e1, Nat.add_mod_right, Nat.mod_eq_of_lt hp]
  · have e1 : (p + (M - e)) % M = p + (M - e) - M := by
      rw [Nat.mod_eq_sub_mod (by omega), Nat.mod_eq_of_lt (by omega)]
    have e2 : p + (M - e) - M + e = p := by omega
    rw [e1, e2, Nat.mod_eq_of_lt hp]

theorem ALIGN_lt (bits x a : Nat) : ALIGN bits x a < 2 ^ bits :=
  Nat.lt_of_le_of_lt Nat.and_le_left (Nat.mod_lt _ (Nat.two_pow_pos bits))

/-- C7: on addresses of `bits` bits, `vport_from_priv` undoes `vport_priv` and
`vport_priv` undoes `vport_from_priv`. -/
theorem vport_priv_from_priv_inverse (bits sizeof_vport v p : Nat)
    (hv : v < 2 ^ bits) (hp : p < 2 ^ bits) :
    vport_from_priv bits sizeof_vport (vport_priv bits sizeof_vport v) = v ∧
    vport_priv bits sizeof_vport (vport_from_priv bits sizeof_vport p) = p := by
  have hd := ALIGN_lt bits sizeof_vport VPORT_ALIGN
  simp only [vport_from_priv, vport_priv, Nat.mod_eq_of_lt hd]
  exact ⟨add_then_sub_mod _ v _ hv hd, sub_then_add_mod _ p _ hp hd⟩

theorem vport_priv_from_priv_inverse_witness :
    (4096 : Nat) < 2 ^ 64 ∧ (4200 : Nat) < 2 ^ 64 ∧
    vport_from_priv 64 92 (vport_priv 64 92 4096) = 4096 ∧
    vport_priv 64 92 (vport_from_priv 64 92 4200) = 4200 :=
  ⟨by decide, by decide,
    vport_priv_from_priv_inverse 64 92 4096 4200 (by decide) (by decide)⟩

/-! ## The metadata type -/

/-- C8, as stated, fails: a header whose `md_type` byte is 0xFE reads as MD
type 0x0E, and the headers with `md_type` bytes 0x11 and 0x01 differ in that
byte but have the same `nsh_md_type`. -/
theorem nsh_md_type_not_whole_byte :
    nsh_md_type { sample_hdr with md_type := 0xFE } ≠ 0xFE ∧
    (({ sample_hdr with md_type := 0x11 } : nsh_hdr).md_type
        ≠ ({ sample_hdr with md_type := 0x01 } : nsh_hdr).md_type ∧
      nsh_md_type { sample_hdr with md_type := 0x11 }
        = nsh_md_type { sample_hdr with md_type := 0x01 }) := by
  decide

/-- C8, amended: `nsh_md_type` is the low four bits of the `md_type` byte; it
is the whole byte when that is below 16, and two headers whose `md_type` bytes
differ in their low four bits have different `nsh_md_type` values. -/
theorem nsh_md_type_low_nibble (h h' : nsh_hdr) :
    nsh_md_type h = h.md_type % 16 ∧
    (h.md_type < 16 → nsh_md_type h = h.md_type) ∧
    (h.md_type % 16 ≠ h'.md_type % 16 → nsh_md_type h ≠ nsh_md_type h') := by
  have e : ∀ x : nsh_hdr, nsh_md_type x = x.md_type % 16 := by
    intro x
    simp only [nsh_md_type, NSH_MDTYPE_MASK, NSH_MDTYPE_SHIFT, land_0f,
      Nat.shiftRight_eq_div_pow]
    omega
  rw [e h, e h']
  exact ⟨rfl, fun hlt => Nat.mod_eq_of_lt hlt, fun hne => hne⟩

theorem nsh_md_type_low_nibble_witness :
    nsh_md_type sample_hdr = 1 % 16 ∧
    nsh_md_type sample_hdr = 1 ∧
    nsh_md_type sample_hdr ≠ nsh_md_type { sample_hdr with md_type := 0xF2 } :=
  have h := nsh_md_type_low_nibble sample_hdr { sample_hdr with md_type := 0xF2 }
  ⟨h.1, h.2.1 (by decide), h.2.2 (by decide)⟩

/-! ## Header lengths -/

/-- C9: the MD-type-1 length is 24 bytes, that is 6 words and the base header
plus the fixed metadata; storing it with `nsh_set_flags_ttl_len` leaves 6 in
the length field and makes `nsh_hdr_len` return 24. -/
theorem nsh_md1_length_is_six_words (be : Bool) (h : nsh_hdr) (flags ttl : Nat) :
    NSH_M_TYPE1_LEN = 6 * 4 ∧
    NSH_M_TYPE1_LEN = NSH_BASE_HDR_LEN + NSH_M_TYPE1_MDLEN ∧
    ntohs be (nsh_set_flags_ttl_len be h flags ttl NSH_M_TYPE1_LEN).ver_flags_ttl_len
      &&& NSH_LEN_MASK = 6 ∧
    nsh_hdr_len be (nsh_set_flags_ttl_len be h flags ttl NSH_M_TYPE1_LEN) = 24 := by
  have hw := ntohs_lt be h.ver_flags_ttl_len
  refine ⟨by decide, by decide, ?_, ?_⟩
  · simp only [nsh_set_flags_ttl_len_word, NSH_LEN_MASK, land_003f, NSH_M_TYPE1_LEN]
    omega
  · simp only [nsh_hdr_len_eq, nsh_set_flags_ttl_len_word, NSH_M_TYPE1_LEN]
    omega

/-- C10, as stated, fails: `path_hdr` is not at byte offset
`NSH_BASE_HDR_LEN`, and `NSH_M_TYPE1_LEN` is not `NSH_BASE_HDR_LEN` plus 4
plus `NSH_M_TYPE1_MDLEN`. -/
theorem nsh_md1_layout_not_8_4_16 :
    nsh_hdr_offsetof .path_hdr ≠ some NSH_BASE_HDR_LEN ∧
    NSH_M_TYPE1_LEN ≠ NSH_BASE_HDR_LEN + 4 + NSH_M_TYPE1_MDLEN := by
  decide

/-- C10, amended: the service path word starts at byte offset 4 and is 4 bytes
long, it ends at offset `NSH_BASE_HDR_LEN` = 8 where the 16-byte MD-type-1
context starts, and the whole MD-type-1 header is `NSH_M_TYPE1_LEN` =
`NSH_BASE_HDR_LEN` + `NSH_M_TYPE1_MDLEN` = 24 bytes. -/
theorem nsh_md1_layout :
    nsh_hdr_offsetof .path_hdr = some 4 ∧
    nsh_hdr_member.size .path_hdr = 4 ∧
    NSH_BASE_HDR_LEN = 8 ∧
    nsh_hdr_offsetof .md = some NSH_BASE_HDR_LEN ∧
    nsh_hdr_member.size .md = NSH_M_TYPE1_MDLEN ∧
    NSH_M_TYPE1_MDLEN = 16 ∧
    NSH_M_TYPE1_LEN = NSH_BASE_HDR_LEN + NSH_M_TYPE1_MDLEN ∧
    nsh_hdr_md1_sizeof = NSH_M_TYPE1_LEN := by
  decide

/-! ## Frame properties of the setters -/

/-- C12: `nsh_set_flags_and_ttl` stores the flags reduced to 2 bits and the
TTL reduced to 6 bits, and leaves the version, the header length, `md_type`,
`next_proto`, `path_hdr` and the metadata as they were; so the service index
and the service path identifier read as before, also after a TTL-only
update. -/
theorem nsh_set_flags_and_ttl_frame (be : Bool) (h : nsh_hdr) (flags ttl : Nat) :
    nsh_get_flags be (nsh_set_flags_and_ttl be h flags ttl) = flags % 4 ∧
    nsh_get_ttl be (nsh_set_flags_and_ttl be h flags ttl) = ttl % 64 ∧
    nsh_get_ver be (nsh_set_flags_and_ttl be h flags ttl) = nsh_get_ver be h ∧
    nsh_hdr_len be (nsh_set_flags_and_ttl be h flags ttl) = nsh_hdr_len be h ∧
    (nsh_set_flags_and_ttl be h flags ttl).md_type = h.md_type ∧
    (nsh_set_flags_and_ttl be h flags ttl).next_proto = h.next_proto ∧
    (nsh_set_flags_and_ttl be h flags ttl).path_hdr = h.path_hdr ∧
    (nsh_set_flags_and_ttl be h flags ttl).md = h.md ∧
    nsh_get_si be (nsh_set_flags_and_ttl be h flags ttl) = nsh_get_si be h ∧
    nsh_get_spi be (nsh_set_flags_and_ttl be h flags ttl) = nsh_get_spi be h ∧
    nsh_get_si be (nsh_set_flags_and_ttl be h (nsh_get_flags be h)
        ((nsh_get_ttl be h + 256 - 1) % 256)) = nsh_get_si be h := by
  have hw := ntohs_lt be h.ver_flags_ttl_len
  refine ⟨?_, ?_, ?_, ?_, rfl, rfl, rfl, rfl, rfl, rfl, rfl⟩
  all_goals
    simp only [nsh_get_ver_eq, nsh_get_flags_eq, nsh_get_ttl_eq, nsh_hdr_len_eq,
      nsh_set_flags_and_ttl_word]
    generalize ntohs be h.ver_flags_ttl_len = w at hw ⊢
    omega

/-- The host-order word under a path header after `nsh_path_hdr_set_si`. -/
theorem nsh_path_hdr_set_si_word (be : Bool) (p si : Nat) :
    ntohl be (nsh_path_hdr_set_si be p si) = ntohl be p / 256 * 256 + si % 256 := by
  have hx := ntohl_lt be p
  have e : cnot NSH_SI_MASK = 0xffffff00 := by decide
  simp only [nsh_path_hdr_set_si, ntohl_htonl, e]
  simp only [NSH_SI_MASK, NSH_SI_SHIFT, land_ffffff00, land_ff, Nat.shiftLeft_eq]
  generalize ntohl be p = x at hx ⊢
  rw [lor_eq_add _ _ 8 (by omega) (by omega)]
  omega

/-- The host-order word under a path header after `nsh_path_hdr_set_spi`. -/
theorem nsh_path_hdr_set_spi_word (be : Bool) (p spi : Nat) :
    ntohl be (nsh_path_hdr_set_spi be p spi)
      = ntohl be spi % 16777216 * 256 + ntohl be p % 256 := by
  have hx := ntohl_lt be p
  have hs := ntohl_lt be spi
  have e : cnot NSH_SPI_MASK = 0xff := by decide
  simp only [nsh_path_hdr_set_spi, ntohl_htonl, e]
  simp only [NSH_SPI_MASK, NSH_SPI_SHIFT, land_ffffff00, land_ff, Nat.shiftLeft_eq]
  generalize ntohl be p = x at hx ⊢
  generalize ntohl be spi = s at hs ⊢
  rw [Nat.or_comm, lor_eq_add _ _ 8 (by omega) (by omega)]
  omega

/-- The fields of a path header, in terms of division and remainder. -/
theorem nsh_path_hdr_to_spi_uint32_eq (be : Bool) (p : Nat) :
    nsh_path_hdr_to_spi_uint32 be p = ntohl be p / 256 := by
  have hx := ntohl_lt be p
  simp only [nsh_path_hdr_to_spi_uint32, NSH_SPI_MASK, NSH_SPI_SHIFT, land_ffffff00,
    Nat.shiftRight_eq_div_pow]
  omega

theorem nsh_path_hdr_to_si_eq (be : Bool) (p : Nat) :
    nsh_path_hdr_to_si be p = ntohl be p % 256 := by
  simp only [nsh_path_hdr_to_si, NSH_SI_MASK, NSH_SI_SHIFT, land_ff,
    Nat.shiftRight_eq_div_pow]
  omega

/-- C13: after `nsh_path_hdr_set_si` with an 8-bit service index the path
header decodes to that service index and to the service path identifier it
had before; in particular storing the old service index minus one leaves the
service path identifier untouched. -/
theorem nsh_path_hdr_set_si_frame (be : Bool) (p si : Nat) (hsi : si < 256) :
    nsh_path_hdr_to_si be (nsh_path_hdr_set_si be p si) = si ∧
    nsh_path_hdr_to_spi_uint32 be (nsh_path_hdr_set_si be p si)
      = nsh_path_hdr_to_spi_uint32 be p ∧
    nsh_path_hdr_to_spi_uint32 be
        (nsh_path_hdr_set_si be p ((nsh_path_hdr_to_si be p + 256 - 1) % 256))
      = nsh_path_hdr_to_spi_uint32 be p := by
  have hx := ntohl_lt be p
  simp only [nsh_path_hdr_to_spi_uint32_eq, nsh_path_hdr_to_si_eq, nsh_path_hdr_set_si_word]
  generalize ntohl be p = x at hx ⊢
  refine ⟨by omega, by omega, by omega⟩

theorem nsh_path_hdr_set_si_frame_witness :
    (254 : Nat) < 256 ∧
    nsh_path_hdr_to_si false (nsh_path_hdr_set_si false 0xff020100 254) = 254 ∧
    nsh_path_hdr_to_spi_uint32 false (nsh_path_hdr_set_si false 0xff020100 254)
      = nsh_path_hdr_to_spi_uint32 false 0xff020100 ∧
    nsh_path_hdr_to_spi_uint32 false
        (nsh_path_hdr_set_si false 0xff020100
          ((nsh_path_hdr_to_si false 0xff020100 + 256 - 1) % 256))
      = nsh_path_hdr_to_spi_uint32 false 0xff020100 :=
  ⟨by decide, nsh_path_hdr_set_si_frame false 0xff020100 254 (by decide)⟩

/-- C14: after `nsh_path_hdr_set_spi` with a 32-bit network-order identifier
the path header decodes to that identifier in host order reduced to 24 bits
and to the service index it had before; when the identifier is below 2^24 in
host order, `nsh_path_hdr_to_spi` returns it unchanged. -/
theorem nsh_path_hdr_set_spi_frame (be : Bool) (p spi : Nat) (hspi : spi < 4294967296) :
    nsh_path_hdr_to_spi_uint32 be (nsh_path_hdr_set_spi be p spi)
      = ntohl be spi % 16777216 ∧
    nsh_path_hdr_to_si be (nsh_path_hdr_set_spi be p spi) = nsh_path_hdr_to_si be p ∧
    (ntohl be spi < 16777216 →
      nsh_path_hdr_to_spi be (nsh_path_hdr_set_spi be p spi) = spi) := by
  have hx := ntohl_lt be p
  have hs := ntohl_lt be spi
  have hback := htonl_ntohl be spi
  have e1 : nsh_path_hdr_to_spi be (nsh_path_hdr_set_spi be p spi)
      = htonl be (nsh_path_hdr_to_spi_uint32 be (nsh_path_hdr_set_spi be p spi)) := rfl
  simp only [e1, nsh_path_hdr_to_spi_uint32_eq, nsh_path_hdr_to_si_eq,
    nsh_path_hdr_set_spi_word]
  generalize ntohl be p = x at hx ⊢
  generalize ntohl be spi = s at hs hback ⊢
  refine ⟨by omega, by omega, fun hlt => ?_⟩
  have e2 : (s % 16777216 * 256 + x % 256) / 256 = s := by omega
  rw [e2, hback]
  exact Nat.mod_eq_of_lt hspi

theorem nsh_path_hdr_set_spi_frame_witness :
    (0x02010000 : Nat) < 4294967296 ∧ ntohl false 0x02010000 < 16777216 ∧
    nsh_path_hdr_to_spi_uint32 false (nsh_path_hdr_set_spi false 0xff000000 0x02010000)
      = ntohl false 0x02010000 % 16777216 ∧
    nsh_path_hdr_to_si false (nsh_path_hdr_set_spi false 0xff000000 0x02010000)
      = nsh_path_hdr_to_si false 0xff000000 ∧
    nsh_path_hdr_to_spi false (nsh_path_hdr_set_spi false 0xff000000 0x02010000)
      = 0x02010000 :=
  have h := nsh_path_hdr_set_spi_frame false 0xff000000 0x02010000 (by decide)
  ⟨by decide, by decide, h.1, h.2.1, h.2.2 (by decide)⟩

/-! ## Limits of the length and metadata-type fields -/

theorem land_fc (w : Nat) : w &&& 0xfc = w / 4 % 64 * 4 := by
  simpa using land_shifted_mask w 6 2

/-- C15: `nsh_hdr_len` is at most 252, which is below `NSH_HDR_MAX_LEN` = 256;
storing `NSH_HDR_MAX_LEN` with `nsh_set_flags_ttl_len` leaves 0 in the length
field and makes `nsh_hdr_len` return 0; for every length the value read back
is `len & 0xfc`. -/
theorem nsh_hdr_max_len_reads_zero (be : Bool) (h : nsh_hdr) (flags ttl len : Nat) :
    nsh_hdr_len be h ≤ 252 ∧ 252 < NSH_HDR_MAX_LEN ∧ NSH_HDR_MAX_LEN = 256 ∧
    ntohs be (nsh_set_flags_ttl_len be h flags ttl NSH_HDR_MAX_LEN).ver_flags_ttl_len
      &&& NSH_LEN_MASK = 0 ∧
    nsh_hdr_len be (nsh_set_flags_ttl_len be h flags ttl NSH_HDR_MAX_LEN) = 0 ∧
    nsh_hdr_len be (nsh_set_flags_ttl_len be h flags ttl len) = len &&& 0xfc := by
  have hw := ntohs_lt be h.ver_flags_ttl_len
  refine ⟨?_, by decide, rfl, ?_, ?_, ?_⟩
  · rw [nsh_hdr_len_eq]; omega
  · simp only [nsh_set_flags_ttl_len_word, NSH_LEN_MASK, land_003f, NSH_HDR_MAX_LEN]
    omega
  · simp only [nsh_hdr_len_eq, nsh_set_flags_ttl_len_word, NSH_HDR_MAX_LEN]
    omega
  · simp only [nsh_hdr_len_eq, nsh_set_flags_ttl_len_word, land_fc]
    omega

/-- The metadata type read by `nsh_md_type`, as a remainder. -/
theorem nsh_md_type_eq (h : nsh_hdr) : nsh_md_type h = h.md_type % 16 := by
  simp only [nsh_md_type, NSH_MDTYPE_MASK, NSH_MDTYPE_SHIFT, land_0f,
    Nat.shiftRight_eq_div_pow]
  omega

/-- C16: `nsh_md_type` is `md_type mod 16`, hence at most 15 and never
`NSH_M_EXP1` (0xFE) or `NSH_M_EXP2` (0xFF); a header whose `md_type` byte is
0xFE reads as 0x0E and one whose byte is 0xFF reads as 0x0F. -/
theorem nsh_md_type_four_bits (h : nsh_hdr) :
    nsh_md_type h = h.md_type % 16 ∧ nsh_md_type h ≤ 15 ∧
    nsh_md_type h ≠ NSH_M_EXP1 ∧ nsh_md_type h ≠ NSH_M_EXP2 ∧
    (h.md_type = 0xFE → nsh_md_type h = 0x0E) ∧
    (h.md_type = 0xFF → nsh_md_type h = 0x0F) := by
  rw [nsh_md_type_eq]
  simp only [NSH_M_EXP1, NSH_M_EXP2]
  refine ⟨trivial, by omega, by omega, by omega, fun e => by omega, fun e => by omega⟩

theorem nsh_md_type_four_bits_witness :
    nsh_md_type { sample_hdr with md_type := NSH_M_EXP1 } = 0x0E ∧
    nsh_md_type { sample_hdr with md_type := NSH_M_EXP2 } = 0x0F :=
  ⟨(nsh_md_type_four_bits { sample_hdr with md_type := NSH_M_EXP1 }).2.2.2.2.1 rfl,
    (nsh_md_type_four_bits { sample_hdr with md_type := NSH_M_EXP2 }).2.2.2.2.2 rfl⟩

/-! ## Header-level accessors of the service path header -/

/-- C17: on the path header `p = nsh_get_path_hdr(h)`, `nsh_get_spi` is
`nsh_path_hdr_to_spi(p)`, its host-order value is
`nsh_path_hdr_to_spi_uint32(p)`, which is below 2^24, and `nsh_get_si` is
`nsh_path_hdr_to_si(p)`. -/
theorem nsh_get_spi_si_agree (be : Bool) (h : nsh_hdr) :
    nsh_get_spi be h = nsh_path_hdr_to_spi be (nsh_get_path_hdr be h) ∧
    ntohl be (nsh_get_spi be h) = nsh_path_hdr_to_spi_uint32 be (nsh_get_path_hdr be h) ∧
    nsh_path_hdr_to_spi_uint32 be (nsh_get_path_hdr be h) < 16777216 ∧
    nsh_get_si be h = nsh_path_hdr_to_si be (nsh_get_path_hdr be h) := by
  have hx := ntohl_lt be (nsh_get_path_hdr be h)
  have e : nsh_get_spi be h
      = htonl be (nsh_path_hdr_to_spi_uint32 be (nsh_get_path_hdr be h)) := rfl
  refine ⟨rfl, ?_, ?_, rfl⟩
  · rw [e, ntohl_htonl, nsh_path_hdr_to_spi_uint32_eq]
    omega
  · rw [nsh_path_hdr_to_spi_uint32_eq]
    omega

/-! ## Byte order independence -/

theorem bswap32_bytes (a b c d : Nat) (ha : a < 256) (hb : b < 256) (hc : c < 256)
    (hd : d < 256) :
    bswap32 (a * 16777216 + b * 65536 + c * 256 + d)
      = d * 16777216 + c * 65536 + b * 256 + a := by
  unfold bswap32
  have h1 : (a * 16777216 + b * 65536 + c * 256 + d) % 256 = d := by omega
  have h2 : (a * 16777216 + b * 65536 + c * 256 + d) / 256 % 256 = c := by omega
  have h3 : (a * 16777216 + b * 65536 + c * 256 + d) / 65536 % 256 = b := by omega
  have h4 : (a * 16777216 + b * 65536 + c * 256 + d) / 16777216 % 256 = a := by omega
  rw [h1, h2, h3, h4]

/-- The host-order value of the word `nsh_16aligned_be32` reads from four
bytes of memory. -/
theorem nsh_16aligned_be32_of_bytes (be : Bool) (b0 b1 b2 b3 : Nat) (h0 : b0 < 256)
    (h1 : b1 < 256) (h2 : b2 < 256) (h3 : b3 < 256) :
    ntohl be (nsh_16aligned_be32 be (ovs_16aligned_be32.of_bytes be b0 b1 b2 b3))
      = b0 * 16777216 + b1 * 65536 + b2 * 256 + b3 := by
  cases be
  · simp only [ntohl, nsh_16aligned_be32, ovs_16aligned_be32.of_bytes, load16,
      Bool.false_eq_true, if_false, Nat.shiftLeft_eq]
    rw [lor_eq_add _ _ 16 (by omega) (by omega)]
    have e : (b3 * 256 + b2) * 2 ^ 16 % 4294967296 + (b1 * 256 + b0)
        = b3 * 16777216 + b2 * 65536 + b1 * 256 + b0 := by omega
    rw [e, bswap32_bytes b3 b2 b1 b0 h3 h2 h1 h0]
  · simp only [ntohl, nsh_16aligned_be32, ovs_16aligned_be32.of_bytes, load16, if_true,
      Nat.shiftLeft_eq]
    rw [lor_eq_add _ _ 16 (by omega) (by omega)]
    omega

/-- The bytes in memory of `htonl(y)` are the bytes of `y`, most significant
first, on either kind of host. -/
theorem store32_htonl (be : Bool) (y : Nat) :
    store32 be (htonl be y) = [y / 16777216 % 256, y / 65536 % 256, y / 256 % 256, y % 256] := by
  cases be
  · simp only [store32, htonl, Bool.false_eq_true, if_false]
    have e : bswap32 y = y % 256 * 16777216 + y / 256 % 256 * 65536
        + y / 65536 % 256 * 256 + y / 16777216 % 256 := rfl
    generalize ha : y % 256 = a at e
    generalize hb : y / 256 % 256 = b at e
    generalize hc : y / 65536 % 256 = c at e
    generalize hd : y / 16777216 % 256 = d at e
    have e1 : bswap32 y % 256 = d := by omega
    have e2 : bswap32 y / 256 % 256 = c := by omega
    have e3 : bswap32 y / 65536 % 256 = b := by omega
    have e4 : bswap32 y / 16777216 % 256 = a := by omega
    rw [e1, e2, e3, e4]
  · simp only [store32, htonl, if_true]
    have e1 : y % 4294967296 / 16777216 % 256 = y / 16777216 % 256 := by omega
    have e2 : y % 4294967296 / 65536 % 256 = y / 65536 % 256 := by omega
    have e3 : y % 4294967296 / 256 % 256 = y / 256 % 256 := by omega
    have e4 : y % 4294967296 % 256 = y % 256 := by omega
    rw [e1, e2, e3, e4]

/-- C18: for four bytes `b0 b1 b2 b3` in memory, the `WORDS_BIGENDIAN` branch
of `nsh_16aligned_be32` on a big-endian host and the other branch on a
little-endian host both return the value whose `ntohl` is
`(b0 << 24) | (b1 << 16) | (b2 << 8) | b3`; so on both hosts `nsh_get_si` is
`b3`, and `nsh_get_spi` is the network-order value of
`(b0 << 16) | (b1 << 8) | b2`, with the same bytes in memory. -/
theorem nsh_16aligned_be32_host_independent (h : nsh_hdr) (b0 b1 b2 b3 : Nat)
    (h0 : b0 < 256) (h1 : b1 < 256) (h2 : b2 < 256) (h3 : b3 < 256) :
    ntohl true (nsh_16aligned_be32 true (ovs_16aligned_be32.of_bytes true b0 b1 b2 b3))
      = ((b0 <<< 24) ||| (b1 <<< 16) ||| (b2 <<< 8) ||| b3) ∧
    ntohl false (nsh_16aligned_be32 false (ovs_16aligned_be32.of_bytes false b0 b1 b2 b3))
      = ((b0 <<< 24) ||| (b1 <<< 16) ||| (b2 <<< 8) ||| b3) ∧
    nsh_get_si true { h with path_hdr := ovs_16aligned_be32.of_bytes true b0 b1 b2 b3 } = b3 ∧
    nsh_get_si false { h with path_hdr := ovs_16aligned_be32.of_bytes false b0 b1 b2 b3 }
      = b3 ∧
    ntohl true
        (nsh_get_spi true { h with path_hdr := ovs_16aligned_be32.of_bytes true b0 b1 b2 b3 })
      = ((b0 <<< 16) ||| (b1 <<< 8) ||| b2) ∧
    ntohl false
        (nsh_get_spi false { h with path_hdr := ovs_16aligned_be32.of_bytes false b0 b1 b2 b3 })
      = ((b0 <<< 16) ||| (b1 <<< 8) ||| b2) ∧
    store32 true
        (nsh_get_spi true { h with path_hdr := ovs_16aligned_be32.of_bytes true b0 b1 b2 b3 })
      = [0, b0, b1, b2] ∧
    store32 false
        (nsh_get_spi false { h with path_hdr := ovs_16aligned_be32.of_bytes false b0 b1 b2 b3 })
      = [0, b0, b1, b2] := by
  have hword := fun be => nsh_16aligned_be32_of_bytes be b0 b1 b2 b3 h0 h1 h2 h3
  have e32 : ((b0 <<< 24) ||| (b1 <<< 16) ||| (b2 <<< 8) ||| b3)
      = b0 * 16777216 + b1 * 65536 + b2 * 256 + b3 := by
    simp only [Nat.shiftLeft_eq]
    simp (disch := omega) only [lor_eq_add _ _ 24, lor_eq_add _ _ 16, lor_eq_add _ _ 8]
  have e24 : ((b0 <<< 16) ||| (b1 <<< 8) ||| b2) = b0 * 65536 + b1 * 256 + b2 := by
    simp only [Nat.shiftLeft_eq]
    simp (disch := omega) only [lor_eq_add _ _ 16, lor_eq_add _ _ 8]
  have hsi : ∀ be, nsh_get_si be
      { h with path_hdr := ovs_16aligned_be32.of_bytes be b0 b1 b2 b3 } = b3 := by
    intro be
    have e : nsh_get_si be { h with path_hdr := ovs_16aligned_be32.of_bytes be b0 b1 b2 b3 }
        = nsh_path_hdr_to_si be
            (nsh_16aligned_be32 be (ovs_16aligned_be32.of_bytes be b0 b1 b2 b3)) := rfl
    rw [e, nsh_path_hdr_to_si_eq, hword be]
    omega
  have hspi : ∀ be, nsh_get_spi be
      { h with path_hdr := ovs_16aligned_be32.of_bytes be b0 b1 b2 b3 }
        = htonl be (b0 * 65536 + b1 * 256 + b2) := by
    intro be
    have e : nsh_get_spi be { h with path_hdr := ovs_16aligned_be32.of_bytes be b0 b1 b2 b3 }
        = htonl be (nsh_path_hdr_to_spi_uint32 be
            (nsh_16aligned_be32 be (ovs_16aligned_be32.of_bytes be b0 b1 b2 b3))) := rfl
    rw [e, nsh_path_hdr_to_spi_uint32_eq, hword be]
    congr 1
    omega
  have hbytes : [(b0 * 65536 + b1 * 256 + b2) / 16777216 % 256,
      (b0 * 65536 + b1 * 256 + b2) / 65536 % 256, (b0 * 65536 + b1 * 256 + b2) / 256 % 256,
      (b0 * 65536 + b1 * 256 + b2) % 256] = [0, b0, b1, b2] := by
    have e1 : (b0 * 65536 + b1 * 256 + b2) / 16777216 % 256 = 0 := by omega
    have e2 : (b0 * 65536 + b1 * 256 + b2) / 65536 % 256 = b0 := by omega
    have e3 : (b0 * 65536 + b1 * 256 + b2) / 256 % 256 = b1 := by omega
    have e4 : (b0 * 65536 + b1 * 256 + b2) % 256 = b2 := by omega
    rw [e1, e2, e3, e4]
  rw [e32, e24, hspi true, hspi false, store32_htonl, store32_htonl, ntohl_htonl, ntohl_htonl,
    hbytes]
  exact ⟨hword true, hword false, hsi true, hsi false, by omega, by omega, rfl, rfl⟩

theorem nsh_16aligned_be32_host_independent_witness :
    ntohl true (nsh_16aligned_be32 true (ovs_16aligned_be32.of_bytes true 0x12 0x34 0x56 0x78))
      = 0x12345678 ∧
    ntohl false
        (nsh_16aligned_be32 false (ovs_16aligned_be32.of_bytes false 0x12 0x34 0x56 0x78))
      = 0x12345678 ∧
    nsh_get_si true
        { sample_hdr with path_hdr := ovs_16aligned_be32.of_bytes true 0x12 0x34 0x56 0x78 }
      = 0x78 ∧
    nsh_get_si false
        { sample_hdr with path_hdr := ovs_16aligned_be32.of_bytes false 0x12 0x34 0x56 0x78 }
      = 0x78 ∧
    store32 true (nsh_get_spi true
        { sample_hdr with path_hdr := ovs_16aligned_be32.of_bytes true 0x12 0x34 0x56 0x78 })
      = [0, 0x12, 0x34, 0x56] ∧
    store32 false (nsh_get_spi false
        { sample_hdr with path_hdr := ovs_16aligned_be32.of_bytes false 0x12 0x34 0x56 0x78 })
      = [0, 0x12, 0x34, 0x56] :=
  have h := nsh_16aligned_be32_host_independent sample_hdr 0x12 0x34 0x56 0x78
    (by decide) (by decide) (by decide) (by decide)
  ⟨h.1, h.2.1, h.2.2.1, h.2.2.2.1, h.2.2.2.2.2.2.1, h.2.2.2.2.2.2.2⟩

/-! ## Alignment of the private data area -/

theorem land_not_seven (bits x : Nat) (hb : 3 ≤ bits) (hx : x < 2 ^ bits) :
    x &&& ((2 ^ bits - 1) ^^^ 7) = x / 8 * 8 := by
  have e7 : (7 : Nat) = 2 ^ 3 - 1 := by decide
  have e8 : (8 : Nat) = 2 ^ 3 := by decide
  rw [e7, e8, ← Nat.shiftLeft_eq, ← Nat.shiftRight_eq_div_pow]
  apply Nat.eq_of_testBit_eq
  intro i
  simp only [Nat.testBit_and, Nat.testBit_xor, Nat.testBit_two_pow_sub_one,
    Nat.testBit_shiftLeft, Nat.testBit_shiftRight]
  by_cases h3 : 3 ≤ i
  · have e : 3 + (i - 3) = i := by omega
    by_cases hi : i < bits
    · have n3 : ¬ i < 3 := by omega
      simp [h3, hi, n3, e]
    · have hlt : x < 2 ^ i :=
        Nat.lt_of_lt_of_le hx (Nat.pow_le_pow_right (Nat.zero_lt_two) (by omega))
      simp [h3, hi, e, Nat.testBit_lt_two_pow hlt]
  · have l3 : i < 3 := by omega
    have hi : i < bits := by omega
    simp [h3, hi, l3]

theorem eight_le_two_pow (bits : Nat) (hb : 3 ≤ bits) : 8 ≤ 2 ^ bits :=
  (Nat.pow_le_pow_right Nat.zero_lt_two hb : 2 ^ 3 ≤ 2 ^ bits)

theorem two_pow_mod_eight (bits : Nat) (hb : 3 ≤ bits) : 2 ^ bits % 8 = 0 := by
  obtain ⟨k, rfl⟩ : ∃ k, bits = 3 + k := ⟨bits - 3, by omega⟩
  rw [Nat.pow_add]
  omega

/-- The value of `ALIGN(s, VPORT_ALIGN)` when `s + 7` does not wrap around. -/
theorem ALIGN_eq_round_up (bits s : Nat) (hb : 3 ≤ bits) (hs : s + 7 < 2 ^ bits) :
    ALIGN bits s VPORT_ALIGN = (s + 7) / 8 * 8 := by
  have h8 := eight_le_two_pow bits hb
  have e1 : (s + 8 - 1) % 2 ^ bits = s + 7 := Nat.mod_eq_of_lt (by omega)
  have e2 : (8 - 1) % 2 ^ bits = 7 := Nat.mod_eq_of_lt (by omega)
  simp only [ALIGN, VPORT_ALIGN, e1, e2]
  exact land_not_seven bits (s + 7) hb hs

/-- C19: for a struct size `s` whose round-up to `VPORT_ALIGN` is
representable in the address width (`s + 7 < 2 ^ bits`, as for every
`sizeof(struct vport)`), the offset `d = ALIGN(s, VPORT_ALIGN)` added by
`vport_priv` is a multiple of 8 with `s <= d < s + 8`; so for every vport
address `v` that is a multiple of 8, `vport_priv(v)` is a multiple of 8 and is
none of the `s` bytes of the vport starting at `v`, and it is at or past
`v + s` when `v + d` lies in the address space. -/
theorem vport_priv_aligned (bits s : Nat) (hb : 3 ≤ bits) (hs : s + 7 < 2 ^ bits) :
    ALIGN bits s VPORT_ALIGN % 8 = 0 ∧
    s ≤ ALIGN bits s VPORT_ALIGN ∧
    ALIGN bits s VPORT_ALIGN < s + 8 ∧
    ∀ v, v % 8 = 0 →
      vport_priv bits s v % 8 = 0 ∧
      (∀ k, k < s → vport_priv bits s v ≠ (v + k) % 2 ^ bits) ∧
      (v + ALIGN bits s VPORT_ALIGN < 2 ^ bits → v + s ≤ vport_priv bits s v) := by
  have hd := ALIGN_eq_round_up bits s hb hs
  have hM := two_pow_mod_eight bits hb
  have hdlt := ALIGN_lt bits s VPORT_ALIGN
  refine ⟨by omega, by omega, by omega, fun v hv => ⟨?_, ?_, ?_⟩⟩
  · unfold vport_priv
    rw [Nat.mod_mod_of_dvd _ (Nat.dvd_of_mod_eq_zero hM)]
    omega
  · intro k hk heq
    unfold vport_priv at heq
    have hz := Nat.sub_mod_eq_zero_of_mod_eq heq
    have e : v + ALIGN bits s VPORT_ALIGN - (v + k) = ALIGN bits s VPORT_ALIGN - k := by
      omega
    rw [e, Nat.mod_eq_of_lt (by omega)] at hz
    omega
  · intro hlt
    unfold vport_priv
    rw [Nat.mod_eq_of_lt hlt]
    omega

theorem vport_priv_aligned_witness :
    3 ≤ 64 ∧ 104 + 7 < 2 ^ 64 ∧ 4096 % 8 = 0 ∧
    ALIGN 64 104 VPORT_ALIGN % 8 = 0 ∧
    104 ≤ ALIGN 64 104 VPORT_ALIGN ∧
    ALIGN 64 104 VPORT_ALIGN < 104 + 8 ∧
    vport_priv 64 104 4096 % 8 = 0 ∧
    vport_priv 64 104 4096 ≠ (4096 + 103) % 2 ^ 64 ∧
    4096 + 104 ≤ vport_priv 64 104 4096 :=
  have h := vport_priv_aligned 64 104 (by decide) (by decide)
  have hv := h.2.2.2 4096 (by decide)
  ⟨by decide, by decide, by decide, h.1, h.2.1, h.2.2.1, hv.1, hv.2.1 103 (by decide),
    hv.2.2 (by decide)⟩

end Ovs
